import Mathlib

/-!
Verification development for the biquad coefficient generator
(`scripts/gen_biquad_coeffs.py`).

The program is embedded shallowly:

* machine floats are modelled by an arbitrary linear ordered field with a
  floor function (instantiated at `ℚ` for executable checks and at `ℝ` for
  the trigonometric filter-design layer; every IEEE double is a rational,
  so `ℚ` covers all machine inputs of the non-trigonometric parts);
* Python's arbitrary-precision `int` is `ℤ`, its `&` on signed integers is
  `Int.land`, and `int()` applied to a float is truncation toward zero;
* the fixed-point quantizer, the four output encoders, the metadata
  construction and the argument-validation logic of `main` are translated
  function by function; text output is modelled as `String`, except that
  the structured (JSON) encoder is modelled up to serialization by the
  document it builds, since `json.dumps` is a function of that document.
-/

/-- Python's `int()` applied to a real value: truncation toward zero
(`int(2.7) = 2`, `int(-2.7) = -2`). -/
def pyInt {α : Type} [LinearOrderedField α] [FloorRing α] (x : α) : ℤ :=
  if 0 ≤ x then ⌊x⌋ else -⌊-x⌋

/-- Embedding of `to_fixed` from `CoeffFormatter.to_verilog`:
`int(val * scale) & ((1 << width) - 1)` with `scale = 2 ** frac_bits`. -/
def to_fixed {α : Type} [LinearOrderedField α] [FloorRing α]
    (val : α) (width frac_bits : ℕ) : ℤ :=
  let scale : ℤ := 2 ^ frac_bits
  Int.land (pyInt (val * (scale : α))) ((1 <<< (width : ℤ)) - 1)

/-- Reading a `width`-bit pattern `p ∈ [0, 2^width)` back as a signed
two's-complement integer (this decoder comes from the spec's wraparound
law, which round-trips through the bit representation). -/
def twos_decode (p : ℤ) (width : ℕ) : ℤ :=
  if p < 2 ^ (width - 1) then p else p - 2 ^ width

/-- Embedding of `BiquadCoeffGenerator._normalize`: divide all coefficients
by `a0` and drop it. The result tuple is `(b0, b1, b2, a1, a2)`. -/
noncomputable def _normalize (b0 b1 b2 a0 a1 a2 : ℝ) : ℝ × ℝ × ℝ × ℝ × ℝ :=
  (b0 / a0, b1 / a0, b2 / a0, a1 / a0, a2 / a0)

/-- Embedding of `BiquadCoeffGenerator.lowpass` (the generator object's
`sample_rate` field is the first argument). -/
noncomputable def lowpass (sample_rate freq q : ℝ) : ℝ × ℝ × ℝ × ℝ × ℝ :=
  let omega := 2 * Real.pi * freq / sample_rate
  let sin_omega := Real.sin omega
  let cos_omega := Real.cos omega
  let alpha := sin_omega / (2 * q)
  _normalize ((1 - cos_omega) / 2) (1 - cos_omega) ((1 - cos_omega) / 2)
    (1 + alpha) (-2 * cos_omega) (1 - alpha)

/-- Embedding of `BiquadCoeffGenerator.highpass`. -/
noncomputable def highpass (sample_rate freq q : ℝ) : ℝ × ℝ × ℝ × ℝ × ℝ :=
  let omega := 2 * Real.pi * freq / sample_rate
  let sin_omega := Real.sin omega
  let cos_omega := Real.cos omega
  let alpha := sin_omega / (2 * q)
  _normalize ((1 + cos_omega) / 2) (-(1 + cos_omega)) ((1 + cos_omega) / 2)
    (1 + alpha) (-2 * cos_omega) (1 - alpha)

/-- Embedding of `BiquadCoeffGenerator.bandpass`. -/
noncomputable def bandpass (sample_rate freq q : ℝ) : ℝ × ℝ × ℝ × ℝ × ℝ :=
  let omega := 2 * Real.pi * freq / sample_rate
  let sin_omega := Real.sin omega
  let cos_omega := Real.cos omega
  let alpha := sin_omega / (2 * q)
  _normalize (sin_omega / 2) 0 (-sin_omega / 2)
    (1 + alpha) (-2 * cos_omega) (1 - alpha)

/-- Embedding of `BiquadCoeffGenerator.bandstop`. -/
noncomputable def bandstop (sample_rate freq q : ℝ) : ℝ × ℝ × ℝ × ℝ × ℝ :=
  let omega := 2 * Real.pi * freq / sample_rate
  let sin_omega := Real.sin omega
  let cos_omega := Real.cos omega
  let alpha := sin_omega / (2 * q)
  _normalize 1 (-2 * cos_omega) 1
    (1 + alpha) (-2 * cos_omega) (1 - alpha)

/-- Embedding of `BiquadCoeffGenerator.peaking`; `A = 10 ** (gain_db / 40)`. -/
noncomputable def peaking (sample_rate freq q gain_db : ℝ) : ℝ × ℝ × ℝ × ℝ × ℝ :=
  let omega := 2 * Real.pi * freq / sample_rate
  let sin_omega := Real.sin omega
  let cos_omega := Real.cos omega
  let A := (10 : ℝ) ^ (gain_db / 40)
  let alpha := sin_omega / (2 * q)
  _normalize (1 + alpha * A) (-2 * cos_omega) (1 - alpha * A)
    (1 + alpha / A) (-2 * cos_omega) (1 - alpha / A)

/-- Uppercase hexadecimal digit, as produced by Python's `X` format code
(`48` is the code of the character zero, `55 + 10` that of the letter A). -/
def hexDigitChar (n : ℕ) : Char :=
  if n < 10 then Char.ofNat (48 + n) else Char.ofNat (55 + n)

/-- Hexadecimal digits of `n`, least significant first (empty for `0`). -/
def hexDigitsRev : ℕ → List Char
  | 0 => []
  | n + 1 => hexDigitChar ((n + 1) % 16) :: hexDigitsRev ((n + 1) / 16)
termination_by n => n
decreasing_by exact Nat.div_lt_self (Nat.succ_pos _) (by norm_num)

/-- Python's hex field `f"{n:0{pad}X}"`: the uppercase hexadecimal digits
of `n`, left-padded with zeros to a minimum of `pad` characters, never
shortened. -/
def fmtHexPad (n pad : ℕ) : String :=
  let ds := if n = 0 then ['0'] else (hexDigitsRev n).reverse
  String.mk (List.replicate (pad - ds.length) '0' ++ ds)

/-- Left-pad a string with copies of `c` to a minimum width `w`. -/
def padLeftWith (c : Char) (w : ℕ) (s : String) : String :=
  String.mk (List.replicate (w - s.length) c) ++ s

/-- Python's fixed-point float field `f"{x:{w}.{p}f}"`: `p` fractional
digits, left-padded with spaces to a minimum width `w`. The reference
rounds the binary double to `p` decimal digits with ties to even; the model
rounds the embedded field element with `round` (no claim in this
development depends on tie behavior or on the sign of a negative zero). -/
def fmtFloat {α : Type} [LinearOrderedField α] [FloorRing α]
    (x : α) (w p : ℕ) : String :=
  let n : ℤ := round (x * (10 : α) ^ p)
  let mag := n.natAbs
  let body := (if n < 0 then "-" else "") ++ toString (mag / 10 ^ p) ++ "." ++
    padLeftWith '0' p (toString (mag % 10 ^ p))
  padLeftWith ' ' w body

/-- One `parameter` line of `CoeffFormatter.to_verilog`:
`parameter <N> = <width>'h<hex>; // <float>` (the apostrophe of the Verilog
literal is written with its character code 27). -/
def verilogLine {α : Type} [LinearOrderedField α] [FloorRing α]
    (name : String) (v : α) (width frac_bits : ℕ) : String :=
  "parameter " ++ name ++ " = " ++ toString width ++ "\x27h" ++
    fmtHexPad (to_fixed v width frac_bits).toNat (width / 4) ++ "; // " ++
    fmtFloat v 8 6

/-- Embedding of `CoeffFormatter.to_verilog`. -/
def to_verilog {α : Type} [LinearOrderedField α] [FloorRing α]
    (coeffs : α × α × α × α × α) (width frac_bits : ℕ) : String :=
  match coeffs with
  | (b0, b1, b2, a1, a2) =>
    "// Biquad Filter Coefficients (Q" ++ toString frac_bits ++ "." ++
      toString (width - frac_bits - 1) ++ ")\n" ++
    verilogLine "B0" b0 width frac_bits ++ "\n" ++
    verilogLine "B1" b1 width frac_bits ++ "\n" ++
    verilogLine "B2" b2 width frac_bits ++ "\n" ++
    verilogLine "A1" a1 width frac_bits ++ "\n" ++
    verilogLine "A2" a2 width frac_bits

/-- Embedding of `CoeffFormatter.to_c` (literal braces are written with
their character code 7b/7d). -/
def to_c {α : Type} [LinearOrderedField α] [FloorRing α]
    (coeffs : α × α × α × α × α) : String :=
  match coeffs with
  | (b0, b1, b2, a1, a2) =>
    "// Biquad Filter Coefficients\n" ++
    "const float b_coeffs[3] = \x7b" ++ fmtFloat b0 12 9 ++ ", " ++
      fmtFloat b1 12 9 ++ ", " ++ fmtFloat b2 12 9 ++ "\x7d;\n" ++
    "const float a_coeffs[2] = \x7b" ++ fmtFloat a1 12 9 ++ ", " ++
      fmtFloat a2 12 9 ++ "\x7d;"

/-- Embedding of `CoeffFormatter.to_matlab`. -/
def to_matlab {α : Type} [LinearOrderedField α] [FloorRing α]
    (coeffs : α × α × α × α × α) : String :=
  match coeffs with
  | (b0, b1, b2, a1, a2) =>
    "% Biquad Filter Coefficients\n" ++
    "b = [" ++ fmtFloat b0 12 9 ++ ", " ++ fmtFloat b1 12 9 ++ ", " ++
      fmtFloat b2 12 9 ++ "];\n" ++
    "a = [1.0, " ++ fmtFloat a1 12 9 ++ ", " ++ fmtFloat a2 12 9 ++ "];"

/-- A value of the metadata dictionary built in `main`: a string, a number,
or Python's `None` (JSON `null`). -/
inductive MetaVal (α : Type) where
  | str (s : String)
  | num (x : α)
  | null
deriving DecidableEq

/-- The document built by `CoeffFormatter.to_json` before `json.dumps`:
`{"coefficients": {"b": [b0,b1,b2], "a": [1.0,a1,a2]}, "metadata"?: ...}`.
Serialization is a deterministic function of this document, so properties
of the emitted text are stated on the document. -/
structure JsonDoc (α : Type) where
  b : List α
  a : List α
  metadata : Option (List (String × MetaVal α))
deriving DecidableEq

/-- Embedding of `CoeffFormatter.to_json`; `if metadata:` keeps the mapping
only when the argument is present (not `None`) and non-empty, mirroring
Python truthiness of `None` and of the empty dict. -/
def to_json {α : Type} [One α]
    (coeffs : α × α × α × α × α)
    (metadata : Option (List (String × MetaVal α))) : JsonDoc α :=
  match coeffs with
  | (b0, b1, b2, a1, a2) =>
    { b := [b0, b1, b2]
      a := [1, a1, a2]
      metadata :=
        match metadata with
        | none => none
        | some m => if m.isEmpty then none else some m }

/-- The `--filter-type` choices. -/
inductive FilterType where
  | lowpass
  | highpass
  | bandpass
  | bandstop
  | peaking
deriving DecidableEq

/-- The CLI spelling of a filter type (`args.filter_type`). -/
def FilterType.arg : FilterType → String
  | .lowpass => "lowpass"
  | .highpass => "highpass"
  | .bandpass => "bandpass"
  | .bandstop => "bandstop"
  | .peaking => "peaking"

/-- The metadata dictionary built in `main`:
`gain_db` maps to `args.gain` for a peaking filter and to `None` otherwise
(`args.gain if args.filter_type == "peaking" else None`). -/
def buildMetadata {α : Type} (ft : FilterType) (freq sample_rate q gain : α) :
    List (String × MetaVal α) :=
  [("filter_type", MetaVal.str ft.arg),
   ("frequency", MetaVal.num freq),
   ("sample_rate", MetaVal.num sample_rate),
   ("q_factor", MetaVal.num q),
   ("gain_db", if ft = FilterType.peaking then MetaVal.num gain else MetaVal.null)]

/-- The `--output` choices. -/
inductive OutputFormat where
  | verilog
  | c
  | matlab
  | json
deriving DecidableEq

/-- The output document produced by one invocation: plain text for the
verilog/c/matlab encoders, the structured document for the json encoder. -/
inductive OutDoc (α : Type) where
  | text (s : String)
  | json (d : JsonDoc α)

/-- The output-producing part of `main` after validation: dispatch on the
filter type to design the coefficients (only `peaking` consumes `gain`),
build the metadata, and dispatch on the output format. -/
noncomputable def runOutput (ft : FilterType) (freq sample_rate q gain : ℝ)
    (out : OutputFormat) (width frac_bits : ℕ) : OutDoc ℝ :=
  let coeffs :=
    match ft with
    | .lowpass => lowpass sample_rate freq q
    | .highpass => highpass sample_rate freq q
    | .bandpass => bandpass sample_rate freq q
    | .bandstop => bandstop sample_rate freq q
    | .peaking => peaking sample_rate freq q gain
  let metadata := buildMetadata ft freq sample_rate q gain
  match out with
  | .verilog => OutDoc.text (to_verilog coeffs width frac_bits)
  | .c => OutDoc.text (to_c coeffs)
  | .matlab => OutDoc.text (to_matlab coeffs)
  | .json => OutDoc.json (to_json coeffs (some metadata))

/-- The validation logic at the top of `main`: returns the process exit
code and whether a diagnostic was printed to the error stream. Validation
runs before any coefficient computation; the accepting branch runs the
pipeline and exits normally. -/
def main_exit (freq sample_rate q : ℚ) : ℕ × Bool :=
  if freq ≤ 0 ∨ freq ≥ sample_rate / 2 then (1, true)
  else if q ≤ 0 then (1, true)
  else (0, false)

/-- The second argument of `Int.land` in `to_fixed` is the mask
`(1 << width) - 1 = 2^width - 1`. -/
theorem one_shiftLeft_sub_one (w : ℕ) : ((1 <<< (w : ℤ)) - 1 : ℤ) = 2 ^ w - 1 := by
  rw [Int.one_shiftLeft]
  push_cast
  ring

theorem land_zero (x : ℤ) : Int.land x 0 = 0 := by
  cases x with
  | ofNat m =>
      show Int.ofNat (m &&& 0) = 0
      simp [Nat.and_zero]
  | negSucc m =>
      show Int.ofNat (Nat.ldiff 0 m) = 0
      simp [Nat.ldiff, Nat.bitwise]

theorem bit_emod_two_pow (b : Bool) (y : ℤ) (n : ℕ) :
    Int.bit b (y % 2 ^ n) = Int.bit b y % 2 ^ (n + 1) := by
  have hk : (0 : ℤ) < 2 ^ n := by positivity
  have hr0 : 0 ≤ y % 2 ^ n := Int.emod_nonneg _ (ne_of_gt hk)
  have hr1 : y % 2 ^ n < 2 ^ n := Int.emod_lt_of_pos _ hk
  have hy : 2 ^ n * (y / 2 ^ n) + y % 2 ^ n = y := Int.ediv_add_emod y (2 ^ n)
  have hc : ∀ c : ℤ, 0 ≤ c → c ≤ 1 →
      2 * (y % 2 ^ n) + c = (2 * y + c) % 2 ^ (n + 1) := by
    intro c hc0 hc1
    have hsplit : 2 * y + c = 2 * (y % 2 ^ n) + c + y / 2 ^ n * 2 ^ (n + 1) := by
      conv_lhs => rw [← hy]
      rw [pow_succ]
      ring
    rw [hsplit, Int.add_mul_emod_self]
    exact (Int.emod_eq_of_lt (by omega) (by rw [pow_succ]; omega)).symm
  cases b
  · simpa [Int.bit_val] using hc 0 le_rfl zero_le_one
  · simpa [Int.bit_val] using hc 1 zero_le_one le_rfl

/-- Masking with the all-ones pattern of `n` low bits is reduction to the
nonnegative residue modulo `2^n`: this is the meaning of Python's
`x & ((1 << n) - 1)` on signed integers. -/
theorem land_two_pow_sub_one_eq_emod (n : ℕ) (x : ℤ) :
    Int.land x (2 ^ n - 1) = x % 2 ^ n := by
  induction n generalizing x with
  | zero =>
      simpa using land_zero x
  | succ n ih =>
      have hmask : (2 ^ (n + 1) - 1 : ℤ) = Int.bit true (2 ^ n - 1) := by
        simp only [Int.bit_val, cond_true]
        ring
      rw [hmask]
      conv_lhs => rw [← Int.bit_decomp x]
      rw [Int.land_bit, ih, Bool.and_true, bit_emod_two_pow, Int.bit_decomp x]

/-- For any valid spec the design angle `omega = 2*pi*freq/sample_rate` lies
strictly between `0` and `pi`, so `sin omega > 0` and `cos omega < 1`. -/
theorem design_trig (freq sample_rate : ℝ) (h0 : 0 < freq) (h1 : freq < sample_rate / 2) :
    0 < Real.sin (2 * Real.pi * freq / sample_rate) ∧
    Real.cos (2 * Real.pi * freq / sample_rate) < 1 := by
  have hsr : 0 < sample_rate := by linarith
  have hpi := Real.pi_pos
  have hw0 : 0 < 2 * Real.pi * freq / sample_rate := by positivity
  have hwpi : 2 * Real.pi * freq / sample_rate < Real.pi := by
    rw [div_lt_iff hsr]
    nlinarith
  refine ⟨Real.sin_pos_of_pos_of_lt_pi hw0 hwpi, ?_⟩
  have h := Real.cos_lt_cos_of_nonneg_of_le_pi (le_refl 0) hwpi.le hw0
  rwa [Real.cos_zero] at h

/-- C1 counterexample input: `v = -1/131072`, so `v * 2^16 = -1/2`, which is
negative and not an integer; the claim predicts the pattern
`floor(-1/2) & (2^18 - 1) = 262143`, but the program computes `0`. -/
theorem to_fixed_floor_cex :
    ((-1 / 131072 : ℚ) * 2 ^ 16 < 0) ∧
    ((⌊(-1 / 131072 : ℚ) * 2 ^ 16⌋ : ℚ) ≠ (-1 / 131072 : ℚ) * 2 ^ 16) ∧
    to_fixed (-1 / 131072 : ℚ) 18 16 = 0 ∧
    Int.land ⌊(-1 / 131072 : ℚ) * 2 ^ 16⌋ (2 ^ 18 - 1) = 262143 ∧
    (0 : ℤ) ≠ 262143 := by
  have hprod : (-1 / 131072 : ℚ) * 2 ^ 16 = -1 / 2 := by norm_num
  have hfloor : ⌊(-1 / 131072 : ℚ) * 2 ^ 16⌋ = -1 := by rw [hprod]; norm_num
  refine ⟨by rw [hprod]; norm_num, by rw [hfloor, hprod]; norm_num, ?_, ?_, by decide⟩
  · rw [to_fixed, one_shiftLeft_sub_one, land_two_pow_sub_one_eq_emod]
    norm_num [pyInt]
  · rw [hfloor, land_two_pow_sub_one_eq_emod]
    decide

/-- C1 (amended): the quantizer truncates toward zero (`int(val*scale)`), not
toward negative infinity; when `v * 2^frac_bits` is negative and not an
integer the masked pattern is `(floor(v * 2^frac_bits) + 1) & (2^width - 1)`,
one above the floor. -/
theorem to_fixed_negative_noninteger {α : Type} [LinearOrderedField α] [FloorRing α]
    (v : α) (width frac_bits : ℕ)
    (hneg : v * 2 ^ frac_bits < 0)
    (hnotint : (⌊v * 2 ^ frac_bits⌋ : α) ≠ v * 2 ^ frac_bits) :
    to_fixed v width frac_bits = Int.land (⌊v * 2 ^ frac_bits⌋ + 1) (2 ^ width - 1) := by
  have hcast : (((2 : ℤ) ^ frac_bits : ℤ) : α) = (2 : α) ^ frac_bits := by push_cast; ring
  rw [to_fixed]
  simp only [hcast]
  set x : α := v * (2 : α) ^ frac_bits with hxdef
  have hfloorlt : (⌊x⌋ : α) < x := (Int.floor_le x).lt_of_ne hnotint
  have hceil_le : ⌈x⌉ ≤ ⌊x⌋ + 1 := Int.ceil_le.mpr (by exact_mod_cast (Int.lt_floor_add_one x).le)
  have hlt : ⌊x⌋ < ⌈x⌉ := by
    have h := hfloorlt.trans_le (Int.le_ceil x)
    exact_mod_cast h
  have hceil : ⌈x⌉ = ⌊x⌋ + 1 := by omega
  have hnotle : ¬ (0 ≤ x) := not_le.mpr hneg
  rw [pyInt, if_neg hnotle, Int.floor_neg, neg_neg, hceil, one_shiftLeft_sub_one]

/-- C1 amended witness at `v = -1/131072`, `width = 18`, `frac_bits = 16`. -/
theorem to_fixed_negative_noninteger_witness :
    ((-1 / 131072 : ℚ) * 2 ^ 16 < 0) ∧
    ((⌊(-1 / 131072 : ℚ) * 2 ^ 16⌋ : ℚ) ≠ (-1 / 131072 : ℚ) * 2 ^ 16) ∧
    to_fixed (-1 / 131072 : ℚ) 18 16 =
      Int.land (⌊(-1 / 131072 : ℚ) * 2 ^ 16⌋ + 1) (2 ^ 18 - 1) := by
  have hprod : (-1 / 131072 : ℚ) * 2 ^ 16 = -1 / 2 := by norm_num
  have h1 : ((-1 / 131072 : ℚ) * 2 ^ 16 < 0) := by rw [hprod]; norm_num
  have h2 : ((⌊(-1 / 131072 : ℚ) * 2 ^ 16⌋ : ℚ) ≠ (-1 / 131072 : ℚ) * 2 ^ 16) := by
    rw [hprod]; norm_num
  exact ⟨h1, h2, to_fixed_negative_noninteger (-1 / 131072 : ℚ) 18 16 h1 h2⟩

/-- C2: the masked pattern lies in `[0, 2^width)`; decoding it as a
`width`-bit two's-complement integer and re-masking reproduces the pattern;
and the quantizer is a total function whose result is always in range (it
wraps silently, it cannot raise). -/
theorem wraparound_and_total (raw : ℤ) (width frac_bits : ℕ) (v : ℚ) (hw : 0 < width) :
    (0 ≤ Int.land raw (2 ^ width - 1) ∧ Int.land raw (2 ^ width - 1) < 2 ^ width) ∧
    Int.land (twos_decode (Int.land raw (2 ^ width - 1)) width) (2 ^ width - 1) =
      Int.land raw (2 ^ width - 1) ∧
    (0 ≤ to_fixed v width frac_bits ∧ to_fixed v width frac_bits < 2 ^ width) := by
  have hpow : (0 : ℤ) < 2 ^ width := by positivity
  have hmask : ∀ y : ℤ, Int.land y (2 ^ width - 1) = y % 2 ^ width :=
    fun y => land_two_pow_sub_one_eq_emod width y
  have hrange : ∀ y : ℤ, 0 ≤ y % 2 ^ width ∧ y % 2 ^ width < 2 ^ width :=
    fun y => ⟨Int.emod_nonneg _ (ne_of_gt hpow), Int.emod_lt_of_pos _ hpow⟩
  refine ⟨by rw [hmask]; exact hrange raw, ?_, ?_⟩
  · rw [hmask, hmask, twos_decode]
    obtain ⟨hp0, hp1⟩ := hrange raw
    split
    · exact Int.emod_eq_of_lt hp0 hp1
    · have heq : raw % 2 ^ width - 2 ^ width = raw % 2 ^ width + -1 * 2 ^ width := by ring
      rw [heq, Int.add_mul_emod_self, Int.emod_eq_of_lt hp0 hp1]
  · rw [to_fixed, one_shiftLeft_sub_one]
    rw [land_two_pow_sub_one_eq_emod]
    exact hrange _

/-- C2 witness: `raw = -5`, `width = 4`, and a hugely out-of-range
coefficient `v = 100000` with `frac_bits = 2`. -/
theorem wraparound_and_total_witness :
    (0 < 4) ∧
    ((0 ≤ Int.land (-5) (2 ^ 4 - 1) ∧ Int.land (-5) (2 ^ 4 - 1) < 2 ^ 4) ∧
    Int.land (twos_decode (Int.land (-5) (2 ^ 4 - 1)) 4) (2 ^ 4 - 1) =
      Int.land (-5) (2 ^ 4 - 1) ∧
    (0 ≤ to_fixed (100000 : ℚ) 4 2 ∧ to_fixed (100000 : ℚ) 4 2 < 2 ^ 4)) :=
  ⟨by decide, wraparound_and_total (-5) 4 2 (100000 : ℚ) (by decide)⟩

/-- C3: for every valid spec the lowpass coefficient set has DC gain 1:
`(b0+b1+b2)/(1+a1+a2) = 1` exactly in the real model, hence within `1e-9`. -/
theorem lowpass_dc_gain (sample_rate freq q : ℝ) (h0 : 0 < freq)
    (h1 : freq < sample_rate / 2) (hq : 0 < q) :
    |((lowpass sample_rate freq q).1 + (lowpass sample_rate freq q).2.1 +
        (lowpass sample_rate freq q).2.2.1) /
      (1 + (lowpass sample_rate freq q).2.2.2.1 + (lowpass sample_rate freq q).2.2.2.2) - 1|
      ≤ 1 / 1000000000 := by
  obtain ⟨hs, hc⟩ := design_trig freq sample_rate h0 h1
  set c : ℝ := Real.cos (2 * Real.pi * freq / sample_rate) with hcdef
  set s : ℝ := Real.sin (2 * Real.pi * freq / sample_rate) with hsdef
  have hq2 : (0 : ℝ) < 2 * q := by linarith
  have ha0 : (0 : ℝ) < 1 + s / (2 * q) := by
    have := div_pos hs hq2
    linarith
  have hcc : (0 : ℝ) < 2 - 2 * c := by linarith
  have hb : (lowpass sample_rate freq q).1 + (lowpass sample_rate freq q).2.1 +
      (lowpass sample_rate freq q).2.2.1 = (2 - 2 * c) / (1 + s / (2 * q)) := by
    show (1 - c) / 2 / (1 + s / (2 * q)) + (1 - c) / (1 + s / (2 * q)) +
      (1 - c) / 2 / (1 + s / (2 * q)) = (2 - 2 * c) / (1 + s / (2 * q))
    field_simp
    ring
  have ha : 1 + (lowpass sample_rate freq q).2.2.2.1 + (lowpass sample_rate freq q).2.2.2.2 =
      (2 - 2 * c) / (1 + s / (2 * q)) := by
    show 1 + -2 * c / (1 + s / (2 * q)) + (1 - s / (2 * q)) / (1 + s / (2 * q)) =
      (2 - 2 * c) / (1 + s / (2 * q))
    field_simp
    ring
  rw [hb, ha, div_self (div_ne_zero hcc.ne' ha0.ne')]
  norm_num

/-- C3 witness at `freq = 12000`, `sample_rate = 48000`, `q = 1`
(so `omega = pi/2`). -/
theorem lowpass_dc_gain_witness :
    ((0 : ℝ) < 12000) ∧ ((12000 : ℝ) < 48000 / 2) ∧ ((0 : ℝ) < 1) ∧
    |((lowpass 48000 12000 1).1 + (lowpass 48000 12000 1).2.1 +
        (lowpass 48000 12000 1).2.2.1) /
      (1 + (lowpass 48000 12000 1).2.2.2.1 + (lowpass 48000 12000 1).2.2.2.2) - 1|
      ≤ 1 / 1000000000 :=
  ⟨by norm_num, by norm_num, by norm_num,
    lowpass_dc_gain 48000 12000 1 (by norm_num) (by norm_num) (by norm_num)⟩

/-- C6: for every valid spec the highpass coefficient set has zero DC gain:
`b0 + b1 + b2 = 0` exactly in the real model, hence within `1e-9`. -/
theorem highpass_dc_null (sample_rate freq q : ℝ) (h0 : 0 < freq)
    (h1 : freq < sample_rate / 2) (hq : 0 < q) :
    |(highpass sample_rate freq q).1 + (highpass sample_rate freq q).2.1 +
        (highpass sample_rate freq q).2.2.1| ≤ 1 / 1000000000 := by
  obtain ⟨hs, hc⟩ := design_trig freq sample_rate h0 h1
  set c : ℝ := Real.cos (2 * Real.pi * freq / sample_rate) with hcdef
  set s : ℝ := Real.sin (2 * Real.pi * freq / sample_rate) with hsdef
  have hq2 : (0 : ℝ) < 2 * q := by linarith
  have ha0 : (0 : ℝ) < 1 + s / (2 * q) := by
    have := div_pos hs hq2
    linarith
  have hb : (highpass sample_rate freq q).1 + (highpass sample_rate freq q).2.1 +
      (highpass sample_rate freq q).2.2.1 = 0 := by
    show (1 + c) / 2 / (1 + s / (2 * q)) + -(1 + c) / (1 + s / (2 * q)) +
      (1 + c) / 2 / (1 + s / (2 * q)) = 0
    field_simp
    ring
  rw [hb]
  norm_num

/-- C6 witness at `freq = 12000`, `sample_rate = 48000`, `q = 1`. -/
theorem highpass_dc_null_witness :
    ((0 : ℝ) < 12000) ∧ ((12000 : ℝ) < 48000 / 2) ∧ ((0 : ℝ) < 1) ∧
    |(highpass 48000 12000 1).1 + (highpass 48000 12000 1).2.1 +
        (highpass 48000 12000 1).2.2.1| ≤ 1 / 1000000000 :=
  ⟨by norm_num, by norm_num, by norm_num,
    highpass_dc_null 48000 12000 1 (by norm_num) (by norm_num) (by norm_num)⟩

/-- C7: for a valid peaking spec with positive gain, `A = 10^(gain_db/40) > 1`,
the unnormalized numerator lead `1 + alpha*A` exceeds the denominator lead
`1 + alpha/A`, and the normalized `b0` of the returned set is `> 1`. -/
theorem peaking_boost (sample_rate freq q gain_db : ℝ) (h0 : 0 < freq)
    (h1 : freq < sample_rate / 2) (hq : 0 < q) (hg : 0 < gain_db) :
    1 + Real.sin (2 * Real.pi * freq / sample_rate) / (2 * q) * (10 : ℝ) ^ (gain_db / 40) >
      1 + Real.sin (2 * Real.pi * freq / sample_rate) / (2 * q) / (10 : ℝ) ^ (gain_db / 40) ∧
    (peaking sample_rate freq q gain_db).1 > 1 := by
  obtain ⟨hs, _⟩ := design_trig freq sample_rate h0 h1
  set s : ℝ := Real.sin (2 * Real.pi * freq / sample_rate) with hsdef
  set A : ℝ := (10 : ℝ) ^ (gain_db / 40) with hAdef
  have hA1 : 1 < A := by
    rw [hAdef, Real.one_lt_rpow_iff_of_pos (by norm_num)]
    exact Or.inl ⟨by norm_num, by positivity⟩
  have hA0 : 0 < A := lt_trans one_pos hA1
  have hq2 : (0 : ℝ) < 2 * q := by linarith
  have hal : 0 < s / (2 * q) := div_pos hs hq2
  have hkey : s / (2 * q) / A < s / (2 * q) * A := by
    calc s / (2 * q) / A < s / (2 * q) := div_lt_self hal hA1
    _ < s / (2 * q) * A := by nlinarith
  refine ⟨by linarith, ?_⟩
  show (1 + s / (2 * q) * A) / (1 + s / (2 * q) / A) > 1
  rw [gt_iff_lt, lt_div_iff (by positivity)]
  linarith

/-- C7 witness at `freq = 12000`, `sample_rate = 48000`, `q = 1`,
`gain_db = 40`. -/
theorem peaking_boost_witness :
    ((0 : ℝ) < 12000) ∧ ((12000 : ℝ) < 48000 / 2) ∧ ((0 : ℝ) < 1) ∧ ((0 : ℝ) < 40) ∧
    (1 + Real.sin (2 * Real.pi * 12000 / 48000) / (2 * 1) * (10 : ℝ) ^ ((40 : ℝ) / 40) >
      1 + Real.sin (2 * Real.pi * 12000 / 48000) / (2 * 1) / (10 : ℝ) ^ ((40 : ℝ) / 40) ∧
    (peaking 48000 12000 1 40).1 > 1) :=
  ⟨by norm_num, by norm_num, by norm_num, by norm_num,
    peaking_boost 48000 12000 1 40 (by norm_num) (by norm_num) (by norm_num) (by norm_num)⟩

/-- C4: the validation in `main` rejects `freq ≤ 0`, `freq ≥ sample_rate/2`
and `q ≤ 0` with a diagnostic on the error stream and exit code 1, before
any coefficient computation; every spec strictly inside the open interval
with positive `q` is accepted with exit code 0 and no diagnostic. -/
theorem main_validation (freq sample_rate q : ℚ) :
    ((freq ≤ 0 ∨ sample_rate / 2 ≤ freq ∨ q ≤ 0) →
      main_exit freq sample_rate q = (1, true)) ∧
    (0 < freq → freq < sample_rate / 2 → 0 < q →
      main_exit freq sample_rate q = (0, false)) := by
  unfold main_exit
  constructor
  · intro h
    split_ifs with h1 h2
    · rfl
    · rfl
    · exfalso
      push_neg at h1
      rcases h with h | h | h
      · linarith [h1.1]
      · linarith [h1.2]
      · exact h2 h
  · intro hf1 hf2 hq
    split_ifs with h1 h2
    · exfalso
      rcases h1 with h | h
      · linarith
      · linarith
    · linarith
    · rfl

/-- C4 witness: Nyquist frequency `24000` at `sample_rate = 48000` is
rejected; `freq = 1000` with the default `q = 0.707` is accepted. -/
theorem main_validation_witness :
    main_exit 24000 48000 (707 / 1000) = (1, true) ∧
    main_exit 1000 48000 (707 / 1000) = (0, false) :=
  ⟨(main_validation 24000 48000 (707 / 1000)).1 (Or.inr (Or.inl (by norm_num))),
   (main_validation 1000 48000 (707 / 1000)).2 (by norm_num) (by norm_num) (by norm_num)⟩

/-- C5 counterexample: for a lowpass invocation the metadata mapping built
by `main` does contain the key `gain_db` (bound to `None`/`null`), contrary
to the claim that no `gain_db` entry is present for non-peaking types. -/
theorem metadata_gain_db_lowpass_cex :
    ("gain_db", (MetaVal.null : MetaVal ℚ)) ∈
      buildMetadata FilterType.lowpass (1000 : ℚ) 48000 (707 / 1000) 0 ∧
    List.lookup "gain_db"
      (buildMetadata FilterType.lowpass (1000 : ℚ) 48000 (707 / 1000) 0) =
      some MetaVal.null := by
  constructor
  · simp [buildMetadata]
  · rfl

/-- C5 (amended): the metadata mapping always carries the key `gain_db`; its
value is the supplied gain for a peaking filter and `null` for every other
type, and the structured encoder embeds the (non-empty) mapping unchanged. -/
theorem metadata_gain_db_always_present {α : Type} [One α] (ft : FilterType)
    (freq sample_rate q gain : α) (coeffs : α × α × α × α × α) :
    List.lookup "gain_db" (buildMetadata ft freq sample_rate q gain) =
      some (if ft = FilterType.peaking then MetaVal.num gain else MetaVal.null) ∧
    (to_json coeffs (some (buildMetadata ft freq sample_rate q gain))).metadata =
      some (buildMetadata ft freq sample_rate q gain) := by
  obtain ⟨b0, b1, b2, a1, a2⟩ := coeffs
  exact ⟨rfl, rfl⟩

/-- C5 amended witness: concrete lowpass and peaking metadata lookups. -/
theorem metadata_gain_db_always_present_witness :
    (List.lookup "gain_db" (buildMetadata FilterType.lowpass (1000 : ℚ) 48000 (707 / 1000) 5) =
      some (if FilterType.lowpass = FilterType.peaking then MetaVal.num (5 : ℚ)
        else MetaVal.null) ∧
    (to_json ((1, 0, 0, 0, 0) : ℚ × ℚ × ℚ × ℚ × ℚ)
        (some (buildMetadata FilterType.lowpass (1000 : ℚ) 48000 (707 / 1000) 5))).metadata =
      some (buildMetadata FilterType.lowpass (1000 : ℚ) 48000 (707 / 1000) 5)) :=
  metadata_gain_db_always_present FilterType.lowpass (1000 : ℚ) 48000 (707 / 1000) 5
    ((1, 0, 0, 0, 0) : ℚ × ℚ × ℚ × ℚ × ℚ)

/-- C8: each of the four encoders is deterministic — equal coefficient sets
and equal formatting parameters produce identical output. -/
theorem encoders_deterministic {α : Type} [LinearOrderedField α] [FloorRing α]
    (c c' : α × α × α × α × α) (w w' fb fb' : ℕ)
    (m m' : Option (List (String × MetaVal α)))
    (hc : c = c') (hw : w = w') (hf : fb = fb') (hm : m = m') :
    to_verilog c w fb = to_verilog c' w' fb' ∧ to_c c = to_c c' ∧
    to_matlab c = to_matlab c' ∧ to_json c m = to_json c' m' := by
  subst hc
  subst hw
  subst hf
  subst hm
  exact ⟨rfl, rfl, rfl, rfl⟩

/-- C8 witness at a concrete rational coefficient set. -/
theorem encoders_deterministic_witness :
    (((1, 0, 0, 0, 0) : ℚ × ℚ × ℚ × ℚ × ℚ) = (1, 0, 0, 0, 0)) ∧ (18 = 18) ∧ (16 = 16) ∧
    ((none : Option (List (String × MetaVal ℚ))) = none) ∧
    (to_verilog ((1, 0, 0, 0, 0) : ℚ × ℚ × ℚ × ℚ × ℚ) 18 16 =
        to_verilog ((1, 0, 0, 0, 0) : ℚ × ℚ × ℚ × ℚ × ℚ) 18 16 ∧
      to_c ((1, 0, 0, 0, 0) : ℚ × ℚ × ℚ × ℚ × ℚ) = to_c ((1, 0, 0, 0, 0) : ℚ × ℚ × ℚ × ℚ × ℚ) ∧
      to_matlab ((1, 0, 0, 0, 0) : ℚ × ℚ × ℚ × ℚ × ℚ) =
        to_matlab ((1, 0, 0, 0, 0) : ℚ × ℚ × ℚ × ℚ × ℚ) ∧
      to_json ((1, 0, 0, 0, 0) : ℚ × ℚ × ℚ × ℚ × ℚ) none =
        to_json ((1, 0, 0, 0, 0) : ℚ × ℚ × ℚ × ℚ × ℚ) none) :=
  ⟨rfl, rfl, rfl, rfl,
    encoders_deterministic ((1, 0, 0, 0, 0) : ℚ × ℚ × ℚ × ℚ × ℚ) (1, 0, 0, 0, 0)
      18 18 16 16 none none rfl rfl rfl rfl⟩

/-- C9: for a non-peaking filter type, two invocations differing only in
the supplied gain produce identical output documents in every format. -/
theorem gain_noninterference (ft : FilterType) (freq sample_rate q g1 g2 : ℝ)
    (out : OutputFormat) (width frac_bits : ℕ) (h : ft ≠ FilterType.peaking) :
    runOutput ft freq sample_rate q g1 out width frac_bits =
      runOutput ft freq sample_rate q g2 out width frac_bits := by
  cases ft <;> first
  | exact absurd rfl h
  | (cases out <;> rfl)

/-- C9 witness: lowpass invocations with gains 0 and 5 give the same
structured document. -/
theorem gain_noninterference_witness :
    (FilterType.lowpass ≠ FilterType.peaking) ∧
    runOutput FilterType.lowpass 1000 48000 1 0 OutputFormat.json 18 16 =
      runOutput FilterType.lowpass 1000 48000 1 5 OutputFormat.json 18 16 :=
  ⟨by decide,
    gain_noninterference FilterType.lowpass 1000 48000 1 0 5 OutputFormat.json 18 16
      (by decide)⟩

theorem string_mk_length (l : List Char) : (String.mk l).length = l.length := rfl

theorem hexDigitsRev_length (n : ℕ) (h : n ≠ 0) :
    (hexDigitsRev n).length = Nat.log 16 n + 1 := by
  induction n using Nat.strong_induction_on with
  | _ n ih =>
    obtain ⟨m, rfl⟩ := Nat.exists_eq_succ_of_ne_zero h
    simp only [hexDigitsRev, List.length_cons]
    by_cases h16 : m + 1 < 16
    · rw [Nat.div_eq_of_lt h16]
      have hlog : Nat.log 16 (m + 1) = 0 := Nat.log_eq_zero_iff.mpr (Or.inl h16)
      simp [hexDigitsRev, hlog]
    · push_neg at h16
      have hdivpos : (m + 1) / 16 ≠ 0 := by
        have := Nat.div_pos h16 (by norm_num)
        omega
      have hlt : (m + 1) / 16 < m + 1 := Nat.div_lt_self (Nat.succ_pos m) (by norm_num)
      rw [ih _ hlt hdivpos]
      have hpos : 0 < Nat.log 16 (m + 1) := Nat.log_pos (by norm_num) h16
      have hrec := Nat.log_div_base 16 (m + 1)
      simp only [Nat.succ_eq_add_one]
      omega

/-- The rendered hex field has exactly `max pad (number of hex digits)`
characters. -/
theorem fmtHexPad_length (n pad : ℕ) :
    (fmtHexPad n pad).length = max pad (if n = 0 then 1 else Nat.log 16 n + 1) := by
  simp only [fmtHexPad, string_mk_length, List.length_append, List.length_replicate]
  split_ifs with h
  · simp only [List.length_singleton]
    omega
  · rw [List.length_reverse, hexDigitsRev_length n h]
    omega

/-- C10 counterexample: at the default `width = 18`, `frac_bits = 16` the
negative coefficient `-262143/65536` wraps to the pattern `1`, which is
below `2^17`, refuting the claim's parenthetical that every negative
coefficient wraps to at least `2^(width-1)`. -/
theorem verilog_negative_wrap_cex :
    ((-262143 / 65536 : ℚ) < 0) ∧
    to_fixed (-262143 / 65536 : ℚ) 18 16 = 1 ∧
    ¬ ((2 : ℤ) ^ (18 - 1) ≤ 1) := by
  refine ⟨by norm_num, ?_, by decide⟩
  rw [to_fixed, one_shiftLeft_sub_one, land_two_pow_sub_one_eq_emod]
  norm_num [pyInt]

/-- C10 (amended): in the hardware encoder the hex field is zero-padded to
a minimum of `width/4` digits but not fixed-width: for `width` not
divisible by 4, a wrapped pattern of at least `16^(width/4)` renders with
`width/4 + 1` hex digits while a smaller nonzero pattern renders with
`width/4`, so lines within one document can differ in length; and every
negative raw value down to `-2^(width-1)` (no deeper overflow) wraps to a
pattern of at least `2^(width-1)`. -/
theorem verilog_hex_field_width (width p small : ℕ) (raw : ℤ)
    (hndvd : ¬ 4 ∣ width)
    (hp1 : p < 2 ^ width) (hp2 : 16 ^ (width / 4) ≤ p)
    (hsmall1 : small ≠ 0) (hsmall2 : small < 16 ^ (width / 4))
    (hraw1 : -2 ^ (width - 1) ≤ raw) (hraw2 : raw < 0) :
    (fmtHexPad p (width / 4)).length = width / 4 + 1 ∧
    (fmtHexPad small (width / 4)).length = width / 4 ∧
    2 ^ (width - 1) ≤ Int.land raw (2 ^ width - 1) := by
  have hw0 : width ≠ 0 := by
    rintro rfl
    exact hndvd ⟨0, rfl⟩
  have hp0 : p ≠ 0 := by
    have : (0 : ℕ) < 16 ^ (width / 4) := by positivity
    omega
  refine ⟨?_, ?_, ?_⟩
  · rw [fmtHexPad_length, if_neg hp0]
    have hup : p < 16 ^ (width / 4 + 1) := by
      have h1 : (16 : ℕ) ^ (width / 4 + 1) = 2 ^ (4 * (width / 4 + 1)) := by
        rw [show (16 : ℕ) = 2 ^ 4 by norm_num, ← pow_mul]
      have h2 : (2 : ℕ) ^ width ≤ 2 ^ (4 * (width / 4 + 1)) :=
        Nat.pow_le_pow_right (by norm_num) (by omega)
      omega
    rw [Nat.log_eq_of_pow_le_of_lt_pow hp2 hup]
    omega
  · rw [fmtHexPad_length, if_neg hsmall1]
    have := Nat.log_lt_of_lt_pow hsmall1 hsmall2
    omega
  · rw [land_two_pow_sub_one_eq_emod]
    have h2w : (2 : ℤ) ^ (width - 1) * 2 = 2 ^ width := by
      rw [← pow_succ]
      congr 1
      omega
    have hhalf : (0 : ℤ) < 2 ^ (width - 1) := by positivity
    have hval : raw % 2 ^ width = raw + 2 ^ width := by
      have hstep : raw % 2 ^ width = (raw + 1 * 2 ^ width) % 2 ^ width := by
        rw [Int.add_mul_emod_self]
      rw [hstep, one_mul]
      exact Int.emod_eq_of_lt (by linarith) (by linarith)
    rw [hval]
    linarith

/-- C10 witness at `width = 18`: pattern `2^17` renders with 5 hex digits,
pattern `255` with 4, and `raw = -3` wraps to at least `2^17`. -/
theorem verilog_hex_field_width_witness :
    (¬ 4 ∣ 18) ∧ (131072 < 2 ^ 18) ∧ (16 ^ (18 / 4) ≤ 131072) ∧
    (255 ≠ 0) ∧ (255 < 16 ^ (18 / 4)) ∧
    ((-2 ^ (18 - 1) : ℤ) ≤ -3) ∧ ((-3 : ℤ) < 0) ∧
    ((fmtHexPad 131072 (18 / 4)).length = 18 / 4 + 1 ∧
      (fmtHexPad 255 (18 / 4)).length = 18 / 4 ∧
      2 ^ (18 - 1) ≤ Int.land (-3) (2 ^ 18 - 1)) :=
  ⟨by decide, by norm_num, by norm_num, by decide, by norm_num, by norm_num, by norm_num,
    verilog_hex_field_width 18 131072 255 (-3) (by decide) (by norm_num) (by norm_num)
      (by decide) (by norm_num) (by norm_num) (by norm_num)⟩
